import Mathlib

/-!
Verification of the chunk metadata model, heading-hierarchy resolution and
token-counting fallback of the docling chat bot repository.

The embedding models the Python source in `app/api/routes.py` and
`app/tokenization.py`.  Python dictionaries are association lists
(`Meta`), Python values that occur in chunk metadata are the inductive
type `Val`, and Python string operations (`str()`, `strip()`,
`str.split()`, `int()`) are modelled by executable Lean functions on
character lists.
-/

namespace DoclingBot

/-- Python values appearing in chunk metadata.  `vobj s` stands for an
arbitrary Python object that is not JSON-serializable (a whole
non-serializable list included) and whose `str()` form is `s`.  List
values are modelled as lists of strings because every list that reaches
this code is either JSON-decoded Milvus metadata or a docling headings
list, both lists of strings. -/
inductive Val where
  | vnone : Val
  | vint : Int → Val
  | vstr : String → Val
  | vlist : List String → Val
  | vobj : String → Val
deriving DecidableEq, Repr

/-- A Python dict with string keys, in insertion order. -/
abbrev Meta := List (String × Val)

/-- Python `repr()` of a string (escaping is not modelled; the strings
handled by this code base contain no quotes or backslashes). -/
def pyReprStr (s : String) : String :=
  String.mk (Char.ofNat 39 :: s.data ++ [Char.ofNat 39])

/-- Python `repr()` of a value. -/
def pyRepr : Val → String
  | Val.vnone => "None"
  | Val.vint n => toString n
  | Val.vstr s => pyReprStr s
  | Val.vlist xs => "[" ++ String.intercalate ", " (xs.map pyReprStr) ++ "]"
  | Val.vobj s => s

/-- Python `str()` of a value. -/
def pyStr : Val → String
  | Val.vstr s => s
  | Val.vobj s => s
  | v => pyRepr v

/-- Python truthiness of a value. -/
def pyTruthy : Val → Bool
  | Val.vnone => false
  | Val.vint n => n != 0
  | Val.vstr s => s != ""
  | Val.vlist xs => !xs.isEmpty
  | Val.vobj _ => true

/-- Whether `json.dumps` succeeds on the value (plain structured data). -/
def serializable : Val → Bool
  | Val.vobj _ => false
  | _ => true

/-- Drop leading whitespace characters. -/
def dropWS (cs : List Char) : List Char := cs.dropWhile Char.isWhitespace

/-- Python `str.strip()` on a character list. -/
def stripChars (cs : List Char) : List Char :=
  (dropWS (dropWS cs).reverse).reverse

/-- Python `str.strip()`. -/
def pyStrip (s : String) : String := String.mk (stripChars s.data)

/-- Accumulating helper for whitespace splitting. -/
def splitWSAux : List Char → List Char → List (List Char)
  | [], acc => if acc.isEmpty then [] else [acc.reverse]
  | c :: rest, acc =>
    if c.isWhitespace then
      if acc.isEmpty then splitWSAux rest [] else acc.reverse :: splitWSAux rest []
    else splitWSAux rest (c :: acc)

/-- Python `text.split()` (split on whitespace runs, no empty pieces). -/
def pySplitWS (s : String) : List String :=
  (splitWSAux s.data []).map String.mk

/-- Python `len(text.split())`, the word-count fallback of the tokenizer. -/
def pyWordCount (s : String) : Nat := (pySplitWS s).length

/-- Python dict lookup `m.get(k)`: value of the first entry with key `k`. -/
def dlookup (m : Meta) (k : String) : Option Val :=
  (m.find? (fun p => p.1 == k)).map (·.2)

/-- Python dict assignment `m[k] = v`: replace the entry in place, or
append a new one. -/
def dset (m : Meta) (k : String) (v : Val) : Meta :=
  if m.any (fun p => p.1 == k) then
    m.map (fun p => if p.1 == k then (k, v) else p)
  else
    m ++ [(k, v)]

/-- Python `m.setdefault(k, v)`. -/
def dsetdefault (m : Meta) (k : String) (v : Val) : Meta :=
  if m.any (fun p => p.1 == k) then m else m ++ [(k, v)]

/-- The apostrophe character, delimiter of string literals in the debug
serialization of docling metadata. -/
def quoteChar : Char := Char.ofNat 39

/-- Characters up to the first closing bracket, the lazy capture of the
pattern used on the meta string; fails at a newline or at end of input
(the regex dot does not match newlines). -/
def captureToBracket : List Char → Option (List Char)
  | [] => none
  | c :: rest =>
    if c = ']' then some []
    else if c = Char.ofNat 10 then none
    else (captureToBracket rest).map (c :: ·)

/-- Leftmost match of the pattern `headings=[...]`: scan for the literal
`headings=[` and capture lazily up to the first closing bracket, moving
on when no bracket closes on the same line. -/
def headingsCapture : List Char → Option (List Char)
  | [] => none
  | c :: rest =>
    if List.isPrefixOf "headings=[".data (c :: rest) then
      match captureToBracket ((c :: rest).drop "headings=[".data.length) with
      | some inside => some inside
      | none => headingsCapture rest
    else headingsCapture rest

/-- Lazy capture between two apostrophes: characters up to the next
apostrophe, with the remainder of the input; fails at a newline or end. -/
def findClose : List Char → Option (List Char × List Char)
  | [] => none
  | c :: rest =>
    if c = quoteChar then some ([], rest)
    else if c = Char.ofNat 10 then none
    else match findClose rest with
      | some (inside, r) => some (c :: inside, r)
      | none => none

/-- Fuel-driven scan implementing `re.findall` for quoted literals:
non-overlapping matches left to right; an opening quote with no close on
the same line is skipped by one character, as the regex engine does. -/
def extractQuotedFuel : Nat → List Char → List (List Char)
  | 0, _ => []
  | _ + 1, [] => []
  | fuel + 1, c :: rest =>
    if c = quoteChar then
      match findClose rest with
      | some (inside, r) => inside :: extractQuotedFuel fuel r
      | none => extractQuotedFuel fuel rest
    else extractQuotedFuel fuel rest

/-- All quoted string literals of a character list, left to right. -/
def extractQuoted (cs : List Char) : List (List Char) :=
  extractQuotedFuel cs.length cs

/-- Embeds `routes.extract_headings_from_meta`: pull the headings list
out of the debug-style serialized metadata string. -/
def extract_headings_from_meta (metaStr : String) : Option (List String) :=
  if metaStr = "" then none
  else
    match headingsCapture metaStr.data with
    | none => none
    | some inside =>
      let values := (extractQuoted inside).map String.mk
      let headings := values.filterMap (fun v =>
        let t := pyStrip v
        if t = "" then none else some t)
      if headings = [] then none else some headings

/-- Normalization of a structured headings list: `str(h).strip()` per
element (`str` is the identity on the string elements), dropping
empties.  Factored out of `headings_from_metadata`. -/
def normalizeHeadings (hs : List String) : List String :=
  (hs.map pyStrip).filter (fun t => t ≠ "")

/-- Embeds `routes.headings_from_metadata`: the structured `headings`
attribute is tried first; the serialized `meta` string is used only when
the structured source yields no non-empty entries. -/
def headings_from_metadata (metaFull : Meta) : Option (List String) :=
  if metaFull = [] then none
  else
    let structured : List String :=
      match dlookup metaFull "headings" with
      | some (Val.vlist hs) => normalizeHeadings hs
      | _ => []
    if structured ≠ [] then some structured
    else
      match dlookup metaFull "meta" with
      | some (Val.vstr s) => extract_headings_from_meta s
      | _ => none

/-- Digits of a decimal literal to a number; `none` when the list is
empty or holds a non-digit. -/
def digitsToNat (cs : List Char) : Option Nat :=
  if cs.isEmpty then none
  else
    cs.foldl (fun acc c =>
      match acc with
      | none => none
      | some n => if c.isDigit then some (n * 10 + (c.toNat - 48)) else none)
      (some 0)

/-- Python `int(s)` on a string: surrounding whitespace is allowed, then
an optional sign and at least one digit. -/
def parseIntPy (s : String) : Option Int :=
  match stripChars s.data with
  | '+' :: rest => (digitsToNat rest).map Int.ofNat
  | '-' :: rest => (digitsToNat rest).map (fun n => -(n : Int))
  | cs => (digitsToNat cs).map Int.ofNat

/-- Embeds the local helper `as_int` of `chunks_by_heading`: Python
`int(val)` converted to `None` on failure.  `int` succeeds on integers
and on integer-literal strings, and fails on everything else. -/
def pyAsInt : Val → Option Int
  | Val.vint n => some n
  | Val.vstr s => parseIntPy s
  | _ => none

/-- Python int conversion applied to the result of a dict get: an
absent key gives None, and int of None fails. -/
def pyAsIntOpt : Option Val → Option Int
  | none => none
  | some v => pyAsInt v

/-- Heading resolution of `chunks_by_heading` as the spec names it:
the requested depth is clamped below at 1 on entry (`payload.depth < 1`)
and above at the path length (`min(depth_requested, len(headings))`);
the returned heading is `headings[-depth_used]`, i.e. the element at
position `len - depth_used`.  An empty path gives the absent result. -/
def resolve_target_heading (path : List String) (depth : Int) : Option (String × Nat) :=
  if path.isEmpty then none
  else
    let depthRequested : Int := if depth < 1 then 1 else depth
    let depthUsed : Nat := min depthRequested.toNat path.length
    some (path.getD (path.length - depthUsed) "", depthUsed)

/-- A record returned by the Milvus query for one stored chunk
(`output_fields=["text", "metadata"]`). -/
structure StoredChunk where
  text : Option String
  metadata : Option Meta
deriving DecidableEq, Repr

/-- The metadata dict of a stored chunk, or an empty dict when it is
absent. -/
def metaOf (ch : StoredChunk) : Meta := ch.metadata.getD []

/-- The heading path of a stored chunk recomputed from its metadata,
`headings_from_metadata(meta) or []`. -/
def chunkHeadingsOf (ch : StoredChunk) : List String :=
  (headings_from_metadata (metaOf ch)).getD []

/-- The response model `SectionChunkHit`. -/
structure SectionChunkHit where
  chunk_index : Int
  document_name : String
  text : Option String
  headings : Option (List String)
  metadata : Option Meta
deriving DecidableEq, Repr

/-- The response model `SectionChunksResponse`. -/
structure SectionChunksResponse where
  depth_used : Nat
  target_heading : Option String
  results : List SectionChunkHit
  message : Option String
deriving DecidableEq, Repr

/-- Outcome of `chunks_by_heading`: the two `HTTPException(404)` branches
and the successful response. -/
inductive SectionResult where
  | docNotFound : SectionResult
  | chunkNotFound : SectionResult
  | ok : SectionChunksResponse → SectionResult
deriving DecidableEq, Repr

/-- The first stored chunk whose normalized `chunk_index` attribute
equals the requested index (the locate loop of `chunks_by_heading`). -/
def locateChunk (chunks : List StoredChunk) (n : Int) : Option StoredChunk :=
  chunks.find? (fun ch => pyAsIntOpt (dlookup (metaOf ch) "chunk_index") == some n)

/-- One match record of `chunks_by_heading`: unparseable `chunk_index`
becomes `-1`, `document_name` falls back to the request field, the
recomputed headings list and the metadata dict are sent as `None` when
empty. -/
def toHit (docName : String) (ch : StoredChunk) : SectionChunkHit :=
  let m := metaOf ch
  let chs := chunkHeadingsOf ch
  { chunk_index := (pyAsIntOpt (dlookup m "chunk_index")).getD (-1)
  , document_name :=
      match dlookup m "document_name" with
      | some v => pyStr v
      | none => docName
  , text := ch.text
  , headings := if chs.isEmpty then none else some chs
  , metadata := if m.isEmpty then none else some m }

/-- The final sort of the match list: Python list sort is stable and
ascending by the key, here the reported chunk index. -/
def sortHits (hits : List SectionChunkHit) : List SectionChunkHit :=
  hits.mergeSort (fun a b => a.chunk_index ≤ b.chunk_index)

/-- The terminal message of the no-section branch. -/
def noSectionMessage : String := "У выбранного чанка не обнаружен раздел"

/-- Embeds `routes.chunks_by_heading` after the Milvus fetch: the input
list is every stored record whose `document_name` equals the request
field (the filtered Milvus query), in store order. -/
def resolveSection (chunks : List StoredChunk) (docName : String)
    (chunkIndex : Int) (depth : Int) : SectionResult :=
  if chunks.isEmpty then SectionResult.docNotFound
  else
    match locateChunk chunks chunkIndex with
    | none => SectionResult.chunkNotFound
    | some target =>
      match resolve_target_heading (chunkHeadingsOf target) depth with
      | none =>
        SectionResult.ok ⟨0, none, [], some noSectionMessage⟩
      | some (targetHeading, depthUsed) =>
        let hits := (chunks.filter
          (fun ch => (chunkHeadingsOf ch).contains targetHeading)).map (toHit docName)
        SectionResult.ok ⟨depthUsed, some targetHeading, sortHits hits, none⟩

/-- A raw docling chunk object: its `__dict__` in attribute order and the
string `str(chunk)` renders to. -/
structure RawChunk where
  dict : Meta
  strRepr : String
deriving DecidableEq, Repr

/-- The deny-list of container-internal bookkeeping fields that
`extract_text_and_metadata` drops. -/
def denyKeys : List String :=
  ["doc_items", "origin", "model_fields", "model_config", "model_extra",
   "model_computed_fields"]

/-- The text-extraction loop: first truthy value among the attributes
`text`, `content`, `page_content`, rendered with `str`. -/
def rawText (chunk : RawChunk) : String :=
  match ["text", "content", "page_content"].findSome?
      (fun a => match dlookup chunk.dict a with
        | some v => if pyTruthy v then some (pyStr v) else none
        | none => none) with
  | some t => t
  | none => ""

/-- The attribute-copy loop of `extract_text_and_metadata`: every field
of the block except the deny-list, with non-serializable values replaced
by their string form under the same key. -/
def normFields (m : Meta) : Meta :=
  m.filterMap (fun p =>
    if p.1 ∈ denyKeys then none
    else if serializable p.2 then some p
    else some (p.1, Val.vstr (pyStr p.2)))

/-- Embeds `routes.extract_text_and_metadata`: text from the first
populated text attribute (falling back to `str(chunk)`), then stripped;
attributes copied except the deny-list, non-serializable values
stringified; the `headings` value coerced to a list of strings (an
empty list when it is not a list); finally `chunk_index` and
`document_name` are assigned and a `source` tag is set by
`setdefault`. -/
def extract_text_and_metadata (chunk : RawChunk) (idx : Int)
    (documentName : String) : String × Meta :=
  let text0 := rawText chunk
  let text1 := if text0 = "" then chunk.strRepr else text0
  let text := pyStrip text1
  let meta0 : Meta := normFields chunk.dict
  let meta1 :=
    match dlookup meta0 "headings" with
    | some (Val.vlist hs) => dset meta0 "headings" (Val.vlist hs)
    | some _ => dset meta0 "headings" (Val.vlist [])
    | none => meta0
  let meta2 := dset meta1 "chunk_index" (Val.vint idx)
  let meta3 := dset meta2 "document_name" (Val.vstr documentName)
  let meta4 := dsetdefault meta3 "source" (Val.vstr "docling_upload")
  (text, meta4)

/-- The per-document part of `routes.index_document`: chunks are
enumerated from 0, normalized, and those whose extracted text is empty
are skipped (after their index was already assigned). -/
def indexDocumentChunks (chunks : List RawChunk) (documentName : String) :
    List (String × Meta) :=
  (chunks.enum.map
    (fun p => extract_text_and_metadata p.2 (Int.ofNat p.1) documentName)).filter
    (fun r => r.1 ≠ "")

/-- The `chunk_index` value of one persisted record, as an integer
(`-1` stands for a non-integer value, which never occurs). -/
def persistedIdx (r : String × Meta) : Int :=
  match dlookup r.2 "chunk_index" with
  | some (Val.vint i) => i
  | _ => -1

/-!  Tokenizer model (`app/tokenization.py`).

A network interaction is an oracle outcome: an HTTP response with a
status code and a token count, a `requests.Timeout`, or another
transport-level `requests.RequestException`. -/

/-- Outcome of one network request. -/
inductive NetOutcome where
  | resp : Nat → Nat → NetOutcome
  | timeout : NetOutcome
  | transport : NetOutcome
deriving DecidableEq, Repr

/-- The mutable state of a `YandexTokenizer` instance: the cached
`endpoint_reachable` tri-state cell (`none` = not yet probed). -/
structure TokState where
  endpoint_reachable : Option Bool
deriving DecidableEq, Repr

/-- Result of one `count_tokens` call: the count, the instance state
after the call, and how many network requests the call performed. -/
structure CountResult where
  count : Nat
  state : TokState
  attempts : Nat
deriving DecidableEq, Repr

/-- Embeds `YandexTokenizer.is_api_reachable`: the cached answer when
present; otherwise one probe request, reachable iff the status is below
500, any `RequestException` counting as unreachable; the answer is
cached. -/
def is_api_reachable (st : TokState) (probe : NetOutcome) :
    Bool × TokState × Nat :=
  match st.endpoint_reachable with
  | some b => (b, st, 0)
  | none =>
    match probe with
    | NetOutcome.resp status _ =>
      (decide (status < 500), ⟨some (decide (status < 500))⟩, 1)
    | NetOutcome.timeout => (false, ⟨some false⟩, 1)
    | NetOutcome.transport => (false, ⟨some false⟩, 1)

/-- Embeds `YandexTokenizer.count_tokens`.  `modelConfigured` is whether
`LLM_MODEL_NAME` is set (when it is not, `tokenize_via_api` returns an
empty token list without network traffic).  `live` is the outcome of the
tokenize POST when it is reached; a 4xx/5xx status makes
`raise_for_status` throw an `HTTPError`, caught by the generic
`RequestException` handler.  Every handler returns the word count; the
`Timeout` and `RequestException` handlers also set the cached
reachability to `False`. -/
def count_tokens (st : TokState) (modelConfigured : Bool)
    (probe live : NetOutcome) (text : String) : CountResult :=
  match is_api_reachable st probe with
  | (reachable, st1, n1) =>
    if !reachable then ⟨pyWordCount text, st1, n1⟩
    else if !modelConfigured then ⟨pyWordCount text, st1, n1⟩
    else
      match live with
      | NetOutcome.resp status ntok =>
        if 400 ≤ status then ⟨pyWordCount text, ⟨some false⟩, n1 + 1⟩
        else if ntok = 0 then ⟨pyWordCount text, st1, n1 + 1⟩
        else ⟨ntok, st1, n1 + 1⟩
      | NetOutcome.timeout => ⟨pyWordCount text, ⟨some false⟩, n1 + 1⟩
      | NetOutcome.transport => ⟨pyWordCount text, ⟨some false⟩, n1 + 1⟩

/-- The metadata part of one extraction, named for reuse. -/
def extractedMeta (chunk : RawChunk) (idx : Int) (documentName : String) : Meta :=
  (extract_text_and_metadata chunk idx documentName).2

/-- The apostrophe as a string, for building debug-serialized
metadata literals. -/
def quoteStr : String := String.mk [quoteChar]

/-- The example from the spec of the debug-serialized `meta` attribute:
a headings fragment with the quoted entries `2 ` and `2.4 ` followed by
`captions=None`. -/
def metaDebugStr : String :=
  "headings=[" ++ quoteStr ++ "2 " ++ quoteStr ++ ", " ++ quoteStr ++ "2.4 "
    ++ quoteStr ++ "] captions=None"

/-- A stored demo chunk with the given index and structured heading
path, as the indexing pipeline would persist it. -/
def demoChunk (i : Int) (hs : List String) : StoredChunk :=
  ⟨some ("text" ++ toString i),
   some [("chunk_index", Val.vint i), ("headings", Val.vlist hs),
         ("document_name", Val.vstr "doc.docx")]⟩

/-- A demo document: chunk 5 has heading path
`["1 ", "1.2 ", "1.2.3 "]`, as in the spec example. -/
def demoChunks : List StoredChunk :=
  [demoChunk 0 ["1 "], demoChunk 1 ["1 ", "1.2 ", "1.2.1 "],
   demoChunk 2 ["1 ", "1.2 ", "1.2.2 "], demoChunk 3 ["1 ", "1.3 "],
   demoChunk 4 ["2 "], demoChunk 5 ["1 ", "1.2 ", "1.2.3 "],
   demoChunk 6 ["1 ", "1.2 "]]

/-- A stored chunk whose `chunk_index` attribute is not parseable as an
integer. -/
def demoBadChunk : StoredChunk :=
  ⟨some "bad",
   some [("chunk_index", Val.vstr "x"),
         ("headings", Val.vlist ["1 ", "1.2 "])]⟩

/-- The demo document extended with the unparseable-index chunk. -/
def demoChunks2 : List StoredChunk :=
  [demoChunk 0 ["1 "], demoBadChunk, demoChunk 5 ["1 ", "1.2 ", "1.2.3 "]]

/-! Lemmas about the dict operations. -/

theorem dlookup_nil (k : String) : dlookup ([] : Meta) k = none := rfl

theorem dlookup_cons (p : String × Val) (t : Meta) (k : String) :
    dlookup (p :: t) k = if p.1 == k then some p.2 else dlookup t k := by
  by_cases hp : p.1 == k <;> simp [dlookup, List.find?, hp]

theorem dlookup_append (m₁ m₂ : Meta) (k : String) :
    dlookup (m₁ ++ m₂) k = (dlookup m₁ k).or (dlookup m₂ k) := by
  induction m₁ with
  | nil => simp [dlookup_nil, Option.or]
  | cons p t ih =>
    by_cases hp : p.1 == k <;>
      simp [dlookup_cons, hp, ih, Option.or]

theorem dlookup_eq_none_iff_any (m : Meta) (k : String) :
    dlookup m k = none ↔ m.any (fun p => p.1 == k) = false := by
  induction m with
  | nil => simp [dlookup_nil]
  | cons p t ih =>
    by_cases hp : p.1 == k <;> simp [dlookup_cons, hp, ih]

theorem dlookup_setmap_self (m : Meta) (k : String) (v : Val)
    (h : m.any (fun p => p.1 == k) = true) :
    dlookup (m.map (fun p => if p.1 == k then (k, v) else p)) k = some v := by
  induction m with
  | nil => simp at h
  | cons p t ih =>
    by_cases hp : p.1 = k
    · simp [dlookup_cons, hp]
    · simp only [List.any_cons] at h
      have hb : (p.1 == k) = false := by simpa using hp
      rw [hb] at h
      simp only [Bool.false_or] at h
      simpa [dlookup_cons, hb, hp] using ih h

theorem dlookup_setmap_ne (m : Meta) (k k' : String) (v : Val) (h : k' ≠ k) :
    dlookup (m.map (fun p => if p.1 == k then (k, v) else p)) k'
      = dlookup m k' := by
  induction m with
  | nil => rfl
  | cons p t ih =>
    simp only [beq_iff_eq] at ih
    by_cases hp : p.1 = k
    · have hk' : k ≠ k' := Ne.symm h
      have hp' : p.1 ≠ k' := by rw [hp]; exact hk'
      simp [dlookup_cons, hp, hk', hp', ih]
    · simp [dlookup_cons, hp, ih]

theorem dlookup_dset_self (m : Meta) (k : String) (v : Val) :
    dlookup (dset m k v) k = some v := by
  unfold dset
  cases hany : m.any (fun p => p.1 == k) with
  | true =>
    simp only [hany, if_true]
    exact dlookup_setmap_self m k v hany
  | false =>
    simp only [hany, Bool.false_eq_true, if_false]
    rw [dlookup_append]
    have hnone : dlookup m k = none := (dlookup_eq_none_iff_any m k).mpr hany
    simp [hnone, dlookup_cons, Option.or]

theorem dlookup_dset_ne (m : Meta) (k k' : String) (v : Val) (h : k' ≠ k) :
    dlookup (dset m k v) k' = dlookup m k' := by
  unfold dset
  cases hany : m.any (fun p => p.1 == k) with
  | true =>
    simp only [hany, if_true]
    exact dlookup_setmap_ne m k k' v h
  | false =>
    simp only [hany, Bool.false_eq_true, if_false]
    rw [dlookup_append]
    have hk : k ≠ k' := Ne.symm h
    cases hlk : dlookup m k' <;>
      simp [hlk, dlookup_cons, hk, dlookup_nil, Option.or]

theorem dlookup_dsetdefault_ne (m : Meta) (k k' : String) (v : Val) (h : k' ≠ k) :
    dlookup (dsetdefault m k v) k' = dlookup m k' := by
  unfold dsetdefault
  cases hany : m.any (fun p => p.1 == k) with
  | true => simp [hany]
  | false =>
    simp only [hany, Bool.false_eq_true, if_false]
    rw [dlookup_append]
    have hk : k ≠ k' := Ne.symm h
    cases hlk : dlookup m k' <;>
      simp [hlk, dlookup_cons, hk, dlookup_nil, Option.or]

theorem dlookup_dsetdefault_none (m : Meta) (k : String) (v : Val)
    (h : dlookup m k = none) :
    dlookup (dsetdefault m k v) k = some v := by
  unfold dsetdefault
  have hany := (dlookup_eq_none_iff_any m k).mp h
  simp only [hany, Bool.false_eq_true, if_false]
  rw [dlookup_append]
  simp [h, dlookup_cons, Option.or]

theorem dlookup_dsetdefault_some (m : Meta) (k : String) (v w : Val)
    (h : dlookup m k = some w) :
    dlookup (dsetdefault m k v) k = some w := by
  unfold dsetdefault
  cases hany : m.any (fun p => p.1 == k) with
  | true => simp [hany, h]
  | false =>
    exact absurd ((dlookup_eq_none_iff_any m k).mpr hany) (by simp [h])

theorem dlookup_normFields_none (m : Meta) (k : String)
    (h : dlookup m k = none) : dlookup (normFields m) k = none := by
  induction m with
  | nil => rfl
  | cons p t ih =>
    rw [dlookup_cons] at h
    by_cases hp : p.1 == k
    · simp [hp] at h
    · have ht := ih (by simpa [hp] using h)
      unfold normFields at ht ⊢
      simp only [List.filterMap_cons]
      by_cases hd : p.1 ∈ denyKeys
      · simpa [hd] using ht
      · by_cases hs : serializable p.2 <;>
          simp [hd, hs, dlookup_cons, hp, ht]

theorem dlookup_normFields_some (m : Meta) (k : String) (v : Val)
    (hd : k ∉ denyKeys) (hs : serializable v = true)
    (h : dlookup m k = some v) :
    dlookup (normFields m) k = some v := by
  induction m with
  | nil => simp [dlookup_nil] at h
  | cons p t ih =>
    rw [dlookup_cons] at h
    by_cases hp : p.1 == k
    · have hp' : p.1 = k := by simpa using hp
      have hv : p.2 = v := by simpa [hp] using h
      unfold normFields
      simp only [List.filterMap_cons]
      simp [hp', hd, hv, hs, dlookup_cons]
    · have ht := ih (by simpa [hp] using h)
      unfold normFields at ht ⊢
      simp only [List.filterMap_cons]
      by_cases hdp : p.1 ∈ denyKeys
      · simpa [hdp] using ht
      · by_cases hsp : serializable p.2 <;>
          simp [hdp, hsp, dlookup_cons, hp, ht]

theorem dlookup_normFields_obj (m : Meta) (k s : String)
    (hd : k ∉ denyKeys)
    (h : dlookup m k = some (Val.vobj s)) :
    dlookup (normFields m) k = some (Val.vstr s) := by
  induction m with
  | nil => simp [dlookup_nil] at h
  | cons p t ih =>
    rw [dlookup_cons] at h
    by_cases hp : p.1 == k
    · have hp' : p.1 = k := by simpa using hp
      have hv : p.2 = Val.vobj s := by simpa [hp] using h
      unfold normFields
      simp only [List.filterMap_cons]
      simp [hp', hd, hv, serializable, pyStr, pyRepr, dlookup_cons]
    · have ht := ih (by simpa [hp] using h)
      unfold normFields at ht ⊢
      simp only [List.filterMap_cons]
      by_cases hdp : p.1 ∈ denyKeys
      · simpa [hdp] using ht
      · by_cases hsp : serializable p.2 <;>
          simp [hdp, hsp, dlookup_cons, hp, ht]

/-! Lemmas about `extract_text_and_metadata`. -/

theorem extractedMeta_chunk_index (chunk : RawChunk) (idx : Int) (name : String) :
    dlookup (extractedMeta chunk idx name) "chunk_index" = some (Val.vint idx) := by
  unfold extractedMeta extract_text_and_metadata
  simp only
  rw [dlookup_dsetdefault_ne _ _ _ _ (by decide),
      dlookup_dset_ne _ _ _ _ (by decide),
      dlookup_dset_self]

theorem extractedMeta_document_name (chunk : RawChunk) (idx : Int) (name : String) :
    dlookup (extractedMeta chunk idx name) "document_name"
      = some (Val.vstr name) := by
  unfold extractedMeta extract_text_and_metadata
  simp only
  rw [dlookup_dsetdefault_ne _ _ _ _ (by decide), dlookup_dset_self]

/-- Lookup of a key other than the three specially handled ones passes
through the final merge steps down to the headings-normalized map. -/
theorem extractedMeta_other (chunk : RawChunk) (idx : Int) (name : String)
    (k : String) (hk1 : k ≠ "chunk_index") (hk2 : k ≠ "document_name")
    (hk3 : k ≠ "headings") (w : Option Val)
    (hw : dlookup (normFields chunk.dict) k = w)
    (hsrc : k = "source" → w ≠ none) :
    dlookup (extractedMeta chunk idx name) k = w := by
  unfold extractedMeta extract_text_and_metadata
  simp only
  have hmid :
      dlookup (match dlookup (normFields chunk.dict) "headings" with
        | some (Val.vlist hs) => dset (normFields chunk.dict) "headings" (Val.vlist hs)
        | some _ => dset (normFields chunk.dict) "headings" (Val.vlist [])
        | none => normFields chunk.dict) k = w := by
    cases hh : dlookup (normFields chunk.dict) "headings" with
    | none => simpa [hh] using hw
    | some v =>
      cases v <;> simp only [hh] <;> rw [dlookup_dset_ne _ _ _ _ hk3] <;> exact hw
  by_cases hks : k = "source"
  · subst hks
    cases hwv : w with
    | none => exact absurd hwv (hsrc rfl)
    | some v =>
      rw [dlookup_dsetdefault_some _ _ _ v]
      rw [dlookup_dset_ne _ _ _ _ hk2, dlookup_dset_ne _ _ _ _ hk1]
      rw [hmid, hwv]
  · rw [dlookup_dsetdefault_ne _ _ _ _ hks,
        dlookup_dset_ne _ _ _ _ hk2, dlookup_dset_ne _ _ _ _ hk1]
    exact hmid

theorem persistedIdx_extract (chunk : RawChunk) (idx : Int) (name : String) :
    persistedIdx (extract_text_and_metadata chunk idx name) = idx := by
  unfold persistedIdx
  rw [show (extract_text_and_metadata chunk idx name).2
        = extractedMeta chunk idx name from rfl,
      extractedMeta_chunk_index]

/-! Claim theorems. -/

/-- C2: for every non-empty heading path, heading resolution clamps the
requested depth to `[1, len(path)]` (a depth of 0 or negative behaves as
depth 1), surfaces the effective depth, and returns the heading at
position `len - effective_depth`; depth 1 gives the last element and any
depth at least the length gives the first. -/
theorem C2_resolve_target_heading_clamps (path : List String) (depth : Int)
    (hne : path ≠ []) :
    ∃ t eff, resolve_target_heading path depth = some (t, eff) ∧
      1 ≤ eff ∧ eff ≤ path.length ∧
      t = path.getD (path.length - eff) "" ∧
      (depth ≤ 0 →
        resolve_target_heading path depth = resolve_target_heading path 1) ∧
      (depth = 1 → t = path.getLast hne) ∧
      ((path.length : Int) ≤ depth → t = path.head hne) := by
  have hlen : 0 < path.length := List.length_pos.mpr hne
  have hemp : path.isEmpty = false := by
    simpa [List.isEmpty_iff] using hne
  have h1 : 1 ≤ (if depth < 1 then (1 : Int) else depth).toNat := by
    split <;> omega
  refine ⟨path.getD (path.length
            - min (if depth < 1 then (1 : Int) else depth).toNat path.length) "",
          min (if depth < 1 then (1 : Int) else depth).toNat path.length,
          ?_, Nat.le_min.mpr ⟨h1, hlen⟩, Nat.min_le_right _ _, rfl, ?_, ?_, ?_⟩
  · unfold resolve_target_heading
    simp [hemp]
  · intro h0
    unfold resolve_target_heading
    have hd : depth < 1 := by omega
    simp [hemp, hd, show ¬ ((1 : Int) < 1) by norm_num]
  · intro h1'
    subst h1'
    have hm : min (if (1 : Int) < 1 then (1 : Int) else 1).toNat path.length = 1 := by
      have ht : ((if (1 : Int) < 1 then (1 : Int) else 1)).toNat = 1 := by norm_num
      rw [ht]
      exact Nat.min_eq_left hlen
    rw [hm, List.getD_eq_getElem _ _ (by omega), List.getLast_eq_getElem]
  · intro hge
    have hd : ¬ (depth < 1) := by omega
    have htn : path.length ≤ depth.toNat := by omega
    have hm : min (if depth < 1 then (1 : Int) else depth).toNat path.length
        = path.length := by
      rw [if_neg hd]
      exact Nat.min_eq_right htn
    rw [hm, Nat.sub_self, List.getD_eq_getElem _ _ (by omega),
        List.head_eq_getElem]

/-- C2 witness: path `["a", "b"]` with requested depth 0 resolves as
depth 1 would, to the last element. -/
theorem C2_witness :
    (["a", "b"] : List String) ≠ [] ∧
    ∃ t eff, resolve_target_heading ["a", "b"] 0 = some (t, eff) ∧
      1 ≤ eff ∧ eff ≤ (["a", "b"] : List String).length ∧
      t = (["a", "b"] : List String).getD ((["a", "b"] : List String).length - eff) "" ∧
      ((0 : Int) ≤ 0 →
        resolve_target_heading ["a", "b"] 0 = resolve_target_heading ["a", "b"] 1) ∧
      ((0 : Int) = 1 → t = (["a", "b"] : List String).getLast (by decide)) ∧
      (((["a", "b"] : List String).length : Int) ≤ 0 →
        t = (["a", "b"] : List String).head (by decide)) :=
  ⟨by decide, C2_resolve_target_heading_clamps ["a", "b"] 0 (by decide)⟩

/-- C3: extraction from metadata holding a structured headings list and
from metadata holding only the debug-serialized string both normalize
the spec example to `["2", "2.4"]`; the structured list wins whenever it
yields any non-empty entry, and the debug string is consulted only when
it does not. -/
theorem C3_dual_heading_sources :
    headings_from_metadata [("headings", Val.vlist ["2 ", "2.4 "])]
      = some ["2", "2.4"] ∧
    headings_from_metadata [("meta", Val.vstr metaDebugStr)]
      = some ["2", "2.4"] ∧
    (∀ m hs, dlookup m "headings" = some (Val.vlist hs) →
      normalizeHeadings hs ≠ [] →
      headings_from_metadata m = some (normalizeHeadings hs)) ∧
    (∀ m hs s, dlookup m "headings" = some (Val.vlist hs) →
      normalizeHeadings hs = [] →
      dlookup m "meta" = some (Val.vstr s) →
      headings_from_metadata m = extract_headings_from_meta s) := by
  refine ⟨by decide, by decide, ?_, ?_⟩
  · intro m hs h hne
    have hm : ¬ (m = []) := by
      rintro rfl; simp [dlookup_nil] at h
    unfold headings_from_metadata
    simp [hm, h, hne]
  · intro m hs s h h0 hmeta
    have hm : ¬ (m = []) := by
      rintro rfl; simp [dlookup_nil] at h
    unfold headings_from_metadata
    simp [hm, h, h0, hmeta]

/-- C3 witness: with both sources present and the structured one
populated, the structured list wins. -/
theorem C3_witness :
    headings_from_metadata
      [("headings", Val.vlist ["2 ", "2.4 "]), ("meta", Val.vstr "ignored")]
      = some ["2", "2.4"] := by
  rw [C3_dual_heading_sources.2.2.1
        [("headings", Val.vlist ["2 ", "2.4 "]), ("meta", Val.vstr "ignored")]
        ["2 ", "2.4 "] (by decide) (by decide)]
  decide

/-- C8: a timeout or a transport-level error during the live tokenize
call is caught inside `count_tokens` (the model is a total function, so
nothing propagates), and the call returns the whitespace-delimited word
count of the input text, whatever the instance state, configuration and
probe outcome are. -/
theorem C8_live_failure_returns_word_count (st : TokState) (cfg : Bool)
    (probe : NetOutcome) (text : String) :
    (count_tokens st cfg probe NetOutcome.timeout text).count
      = pyWordCount text ∧
    (count_tokens st cfg probe NetOutcome.transport text).count
      = pyWordCount text := by
  unfold count_tokens is_api_reachable
  rcases st with ⟨(_ | b)⟩
  · cases probe with
    | resp s tk => cases cfg <;> by_cases hs : s < 500 <;> simp [hs]
    | timeout => cases cfg <;> simp
    | transport => cases cfg <;> simp
  · cases b <;> cases cfg <;> simp

/-- C4: once an instance has observed unreachability, the state is
`some false` and every later `count_tokens` call returns the word count
with zero network attempts, leaving the state untouched; a timed-out or
transport-failing first probe, a 5xx first probe, and a timeout or
transport error during a live call all put the instance into that state,
and no path ever resets it. -/
theorem C4_sticky_unreachable (st : TokState) (cfg : Bool)
    (probe live : NetOutcome) (text : String)
    (h : st.endpoint_reachable = some false) :
    count_tokens st cfg probe live text
      = ⟨pyWordCount text, st, 0⟩ ∧
    (∀ cfg2 live2 text2,
      count_tokens ⟨none⟩ cfg2 NetOutcome.timeout live2 text2
        = ⟨pyWordCount text2, ⟨some false⟩, 1⟩) ∧
    (∀ cfg2 live2 text2,
      count_tokens ⟨none⟩ cfg2 NetOutcome.transport live2 text2
        = ⟨pyWordCount text2, ⟨some false⟩, 1⟩) ∧
    (∀ s tk text2, 500 ≤ s →
      count_tokens ⟨none⟩ cfg (NetOutcome.resp s tk) live text2
        = ⟨pyWordCount text2, ⟨some false⟩, 1⟩) ∧
    (∀ s tk text2, s < 500 →
      (count_tokens ⟨none⟩ true (NetOutcome.resp s tk) NetOutcome.timeout
          text2).state = ⟨some false⟩ ∧
      (count_tokens ⟨none⟩ true (NetOutcome.resp s tk) NetOutcome.transport
          text2).state = ⟨some false⟩) := by
  rcases st with ⟨st0⟩
  cases h
  refine ⟨?_, ?_, ?_, ?_, ?_⟩
  · unfold count_tokens is_api_reachable
    simp
  · intro cfg2 live2 text2
    unfold count_tokens is_api_reachable
    simp
  · intro cfg2 live2 text2
    unfold count_tokens is_api_reachable
    simp
  · intro s tk text2 hs
    unfold count_tokens is_api_reachable
    have hns : ¬ (s < 500) := by omega
    simp [hns]
  · intro s tk text2 hs
    unfold count_tokens is_api_reachable
    simp [hs]

/-- C4 witness: with the sticky unreachable state, counting
`"a b c"` returns the word count 3, performs no network attempt and
keeps the state. -/
theorem C4_witness :
    count_tokens ⟨some false⟩ true (NetOutcome.resp 200 5)
      (NetOutcome.resp 200 5) "a b c"
      = ⟨3, ⟨some false⟩, 0⟩ := by
  rw [(C4_sticky_unreachable ⟨some false⟩ true (NetOutcome.resp 200 5)
        (NetOutcome.resp 200 5) "a b c" rfl).1]
  decide

/-- C6 counterexample: a block that itself supplies a `source` attribute
keeps it — the default tag does not overwrite it, because the code uses
`setdefault`.  This refutes the claim that all three of `index`,
`document_name` and the `source` tag overwrite same-named block
fields. -/
theorem C6_counterexample :
    dlookup (extractedMeta
        ⟨[("source", Val.vstr "block-source"), ("text", Val.vstr "hello")], "c"⟩
        0 "doc.docx") "source"
      = some (Val.vstr "block-source") ∧
    some (Val.vstr "block-source") ≠ some (Val.vstr "docling_upload") := by
  constructor
  · decide
  · decide

/-- C6 amended: `chunk_index` and `document_name` are merged in,
overwriting any same-named block fields; the `source` tag is only a
default, set when the block supplied no `source` attribute (a
block-supplied one is kept). -/
theorem C6_amended_authoritative_fields (chunk : RawChunk) (idx : Int)
    (name : String) :
    dlookup (extractedMeta chunk idx name) "chunk_index"
      = some (Val.vint idx) ∧
    dlookup (extractedMeta chunk idx name) "document_name"
      = some (Val.vstr name) ∧
    (dlookup chunk.dict "source" = none →
      dlookup (extractedMeta chunk idx name) "source"
        = some (Val.vstr "docling_upload")) := by
  refine ⟨extractedMeta_chunk_index chunk idx name,
          extractedMeta_document_name chunk idx name, ?_⟩
  intro hnone
  unfold extractedMeta extract_text_and_metadata
  simp only
  have h0 : dlookup (normFields chunk.dict) "source" = none :=
    dlookup_normFields_none chunk.dict "source" hnone
  have hmid :
      dlookup (match dlookup (normFields chunk.dict) "headings" with
        | some (Val.vlist hs) =>
            dset (normFields chunk.dict) "headings" (Val.vlist hs)
        | some _ => dset (normFields chunk.dict) "headings" (Val.vlist [])
        | none => normFields chunk.dict) "source" = none := by
    cases hh : dlookup (normFields chunk.dict) "headings" with
    | none => simpa [hh] using h0
    | some v =>
      cases v <;> simp only [hh] <;>
        rw [dlookup_dset_ne _ _ _ _ (by decide)] <;> exact h0
  apply dlookup_dsetdefault_none
  rw [dlookup_dset_ne _ _ _ _ (by decide), dlookup_dset_ne _ _ _ _ (by decide)]
  exact hmid

/-- C6 amended witness: on a block without a `source` attribute the
default tag is set, and the caller index and document name land in the
metadata. -/
theorem C6_amended_witness :
    dlookup (extractedMeta ⟨[("text", Val.vstr "hello")], "c"⟩ 3 "doc.docx")
        "chunk_index" = some (Val.vint 3) ∧
    dlookup (extractedMeta ⟨[("text", Val.vstr "hello")], "c"⟩ 3 "doc.docx")
        "document_name" = some (Val.vstr "doc.docx") ∧
    dlookup (extractedMeta ⟨[("text", Val.vstr "hello")], "c"⟩ 3 "doc.docx")
        "source" = some (Val.vstr "docling_upload") := by
  have h := C6_amended_authoritative_fields
    ⟨[("text", Val.vstr "hello")], "c"⟩ 3 "doc.docx"
  exact ⟨h.1, h.2.1, h.2.2 (by decide)⟩

/-- C9: a non-serializable block attribute (outside the deny-list) is
stored by the copy loop as its string form under the same key; when the
key is none of the specially handled ones (`headings` is coerced,
`chunk_index` and `document_name` are overwritten by the caller) the
string form survives to the final metadata, the extraction is a total
function (nothing fails), and every other ordinary serializable
attribute is extracted unchanged. -/
theorem C9_nonserializable_stringified (chunk : RawChunk) (idx : Int)
    (name : String) (k s : String)
    (hd : k ∉ denyKeys)
    (hv : dlookup chunk.dict k = some (Val.vobj s)) :
    dlookup (normFields chunk.dict) k = some (Val.vstr s) ∧
    (k ∉ (["headings", "chunk_index", "document_name"] : List String) →
      dlookup (extractedMeta chunk idx name) k = some (Val.vstr s)) ∧
    (∀ k' v', k' ∉ denyKeys →
      k' ∉ (["headings", "chunk_index", "document_name"] : List String) →
      serializable v' = true →
      dlookup chunk.dict k' = some v' →
      dlookup (extractedMeta chunk idx name) k' = some v') := by
  have hobj := dlookup_normFields_obj chunk.dict k s hd hv
  refine ⟨hobj, ?_, ?_⟩
  · intro hns
    simp only [List.mem_cons, List.mem_singleton, not_or] at hns
    obtain ⟨h1, h2, h3, -⟩ := hns
    exact extractedMeta_other chunk idx name k h2 h3 h1
      (some (Val.vstr s)) hobj (fun _ => by simp)
  · intro k' v' hd' hns' hser hlk
    simp only [List.mem_cons, List.mem_singleton, not_or] at hns'
    obtain ⟨h1, h2, h3, -⟩ := hns'
    exact extractedMeta_other chunk idx name k' h2 h3 h1
      (some v') (dlookup_normFields_some chunk.dict k' v' hd' hser hlk)
      (fun _ => by simp)

/-- C9 witness: a chunk with a non-serializable `payload` attribute and
an ordinary `caption` attribute; the first is stringified, the second
kept, and the call returns normally. -/
theorem C9_witness :
    dlookup (normFields [("payload", Val.vobj "<obj 1>"),
        ("caption", Val.vstr "fig")]) "payload" = some (Val.vstr "<obj 1>") ∧
    dlookup (extractedMeta
        ⟨[("payload", Val.vobj "<obj 1>"), ("caption", Val.vstr "fig")], "c"⟩
        0 "d.docx") "payload" = some (Val.vstr "<obj 1>") ∧
    dlookup (extractedMeta
        ⟨[("payload", Val.vobj "<obj 1>"), ("caption", Val.vstr "fig")], "c"⟩
        0 "d.docx") "caption" = some (Val.vstr "fig") := by
  have h := C9_nonserializable_stringified
    ⟨[("payload", Val.vobj "<obj 1>"), ("caption", Val.vstr "fig")], "c"⟩
    0 "d.docx" "payload" "<obj 1>" (by decide) (by decide)
  exact ⟨h.1, h.2.1 (by decide),
    h.2.2 "caption" (Val.vstr "fig") (by decide) (by decide) (by decide) (by decide)⟩

/-- C5 counterexample: a document whose first produced chunk renders to
empty text.  The empty chunk is discarded only after its enumeration
index was assigned, so the single persisted chunk carries `chunk_index`
1 — the persisted indices are not `{0, ..., N-1}`. -/
theorem C5_counterexample :
    (indexDocumentChunks [⟨[], ""⟩, ⟨[], "hello"⟩] "doc.docx").map persistedIdx
      = [1] ∧
    ¬ ((indexDocumentChunks [⟨[], ""⟩, ⟨[], "hello"⟩] "doc.docx").map persistedIdx
      = (List.range
          (indexDocumentChunks [⟨[], ""⟩, ⟨[], "hello"⟩] "doc.docx").length).map
          Int.ofNat) := by
  constructor
  · decide
  · decide

/-- C5 amended: persisted `chunk_index` values of one document are
strictly increasing (hence unique and 0-based-capped by the enumeration)
and they are exactly `{0, ..., N-1}` whenever no produced chunk has
empty normalized text; a discarded empty-text chunk leaves a gap
instead. -/
theorem C5_amended_indices (chunks : List RawChunk) (name : String) :
    List.Pairwise (fun a b => a < b)
      ((indexDocumentChunks chunks name).map persistedIdx) ∧
    ((∀ r ∈ chunks.enum.map
        (fun p => extract_text_and_metadata p.2 (Int.ofNat p.1) name), r.1 ≠ "") →
      (indexDocumentChunks chunks name).map persistedIdx
        = (List.range chunks.length).map Int.ofNat) := by
  have hmap : (chunks.enum.map
      (fun p => extract_text_and_metadata p.2 (Int.ofNat p.1) name)).map persistedIdx
      = (List.range chunks.length).map Int.ofNat := by
    rw [List.map_map]
    have hfun : (persistedIdx ∘ fun p : Nat × RawChunk =>
        extract_text_and_metadata p.2 (Int.ofNat p.1) name)
        = (Int.ofNat ∘ Prod.fst) := by
      funext p
      simp [Function.comp, persistedIdx_extract]
    rw [hfun, ← List.map_map, List.enum_map_fst]
  constructor
  · have hsub : ((indexDocumentChunks chunks name).map persistedIdx).Sublist
        ((chunks.enum.map (fun p =>
          extract_text_and_metadata p.2 (Int.ofNat p.1) name)).map persistedIdx) := by
      unfold indexDocumentChunks
      exact (List.filter_sublist _).map persistedIdx
    rw [hmap] at hsub
    refine List.Pairwise.sublist hsub ?_
    refine List.Pairwise.map _ ?_ (List.pairwise_lt_range chunks.length)
    intro a b h
    exact Int.ofNat_lt.mpr h
  · intro hall
    unfold indexDocumentChunks
    rw [List.filter_eq_self.mpr, hmap]
    intro a ha
    simpa using hall a ha

/-- C5 amended witness: with every chunk text non-empty the indices are
exactly `{0, 1}`, and strict monotonicity holds on the gapped example. -/
theorem C5_amended_witness :
    List.Pairwise (fun a b => a < b)
      ((indexDocumentChunks [⟨[], ""⟩, ⟨[], "hello"⟩] "doc.docx").map persistedIdx) ∧
    (indexDocumentChunks [⟨[], "hi"⟩, ⟨[], "hello"⟩] "doc.docx").map persistedIdx
      = (List.range 2).map Int.ofNat := by
  refine ⟨(C5_amended_indices [⟨[], ""⟩, ⟨[], "hello"⟩] "doc.docx").1, ?_⟩
  have h := (C5_amended_indices [⟨[], "hi"⟩, ⟨[], "hello"⟩] "doc.docx").2
    (by decide)
  simpa using h

/-- C7: the three non-match outcomes of `resolveSection` are pairwise
distinct: an empty fetch is the document-not-found failure, a fetch with
no chunk of the requested index is the chunk-not-found failure, and a
located chunk without a heading path is a successful empty response
with the no-section message. -/
theorem C7_three_outcomes (chunks : List StoredChunk) (docName : String)
    (n depth : Int) :
    resolveSection [] docName n depth = SectionResult.docNotFound ∧
    (chunks ≠ [] → locateChunk chunks n = none →
      resolveSection chunks docName n depth = SectionResult.chunkNotFound) ∧
    (∀ tc, locateChunk chunks n = some tc → chunkHeadingsOf tc = [] →
      resolveSection chunks docName n depth
        = SectionResult.ok ⟨0, none, [], some noSectionMessage⟩) ∧
    SectionResult.docNotFound ≠ SectionResult.chunkNotFound ∧
    (∀ r : SectionChunksResponse,
      SectionResult.ok r ≠ SectionResult.docNotFound ∧
      SectionResult.ok r ≠ SectionResult.chunkNotFound) := by
  refine ⟨rfl, ?_, ?_, by decide,
    fun r => ⟨fun h => SectionResult.noConfusion h,
              fun h => SectionResult.noConfusion h⟩⟩
  · intro hne hloc
    have hemp : chunks.isEmpty = false := by
      simpa [List.isEmpty_iff] using hne
    unfold resolveSection
    simp [hemp, hloc]
  · intro tc hloc hhe
    have hne : chunks ≠ [] := by
      rintro rfl
      simp [locateChunk] at hloc
    have hemp : chunks.isEmpty = false := by
      simpa [List.isEmpty_iff] using hne
    unfold resolveSection
    simp [hemp, hloc, hhe, resolve_target_heading]

/-- C7 witness: one stored chunk with index 0 and no heading metadata;
querying an empty store, a missing index, and the headingless chunk hit
the three distinct outcomes. -/
theorem C7_witness :
    resolveSection [] "d.docx" 0 1 = SectionResult.docNotFound ∧
    resolveSection [⟨some "t", some [("chunk_index", Val.vint 0)]⟩] "d.docx" 7 1
      = SectionResult.chunkNotFound ∧
    resolveSection [⟨some "t", some [("chunk_index", Val.vint 0)]⟩] "d.docx" 0 1
      = SectionResult.ok ⟨0, none, [], some noSectionMessage⟩ := by
  have h1 := C7_three_outcomes
    [⟨some "t", some [("chunk_index", Val.vint 0)]⟩] "d.docx" 7 1
  have h2 := C7_three_outcomes
    [⟨some "t", some [("chunk_index", Val.vint 0)]⟩] "d.docx" 0 1
  exact ⟨h1.1, h1.2.1 (by decide) (by decide),
    h2.2.2.1 ⟨some "t", some [("chunk_index", Val.vint 0)]⟩ (by decide) (by decide)⟩

/-! Helpers for the section-grouping claims. -/

theorem sortHits_perm (l : List SectionChunkHit) : (sortHits l).Perm l :=
  List.mergeSort_perm l _

theorem sortHits_sorted (l : List SectionChunkHit) :
    List.Pairwise (fun a b => a.chunk_index ≤ b.chunk_index) (sortHits l) := by
  have h := @List.sorted_mergeSort SectionChunkHit
      (fun a b => decide (a.chunk_index ≤ b.chunk_index))
      (fun a b c hab hbc => by
        simp only [decide_eq_true_eq] at hab hbc ⊢
        omega)
      (fun a b => by
        rcases Int.le_total a.chunk_index b.chunk_index with h | h <;> simp [h]) l
  exact h.imp (fun hab => by simpa using hab)

theorem locateChunk_mem (chunks : List StoredChunk) (n : Int)
    (tc : StoredChunk) (h : locateChunk chunks n = some tc) : tc ∈ chunks :=
  List.mem_of_find?_eq_some h

/-- In a list sorted ascending by reported index, a hit reported with
index -1 comes before every hit with a nonnegative index. -/
theorem neg_one_hits_first (l : List SectionChunkHit)
    (hs : List.Pairwise (fun a b => a.chunk_index ≤ b.chunk_index) l)
    (i j : Fin l.length) (hi : (l.get i).chunk_index = -1)
    (hj : 0 ≤ (l.get j).chunk_index) : i < j := by
  rcases lt_trichotomy i j with h | h | h
  · exact h
  · exfalso
    rw [h] at hi
    rw [hi] at hj
    omega
  · exfalso
    have hle := List.pairwise_iff_get.mp hs j i h
    rw [hi] at hle
    omega

/-- Successful resolution: with a located chunk whose heading path
resolves, `resolveSection` returns the sorted hit list of the chunks
whose recomputed heading path contains the target. -/
theorem resolveSection_ok (chunks : List StoredChunk) (docName : String)
    (n depth : Int) (tc : StoredChunk) (target : String) (eff : Nat)
    (hloc : locateChunk chunks n = some tc)
    (hres : resolve_target_heading (chunkHeadingsOf tc) depth
      = some (target, eff)) :
    resolveSection chunks docName n depth = SectionResult.ok
      ⟨eff, some target,
       sortHits ((chunks.filter
         (fun ch => (chunkHeadingsOf ch).contains target)).map (toHit docName)),
       none⟩ := by
  have hne : chunks ≠ [] := by
    rintro rfl
    simp [locateChunk] at hloc
  have hemp : chunks.isEmpty = false := by
    simpa [List.isEmpty_iff] using hne
  unfold resolveSection
  simp [hemp, hloc, hres]

/-- Resolution on a non-empty path always succeeds and returns an
element of the path. -/
theorem resolve_target_heading_mem (path : List String) (depth : Int)
    (hne : path ≠ []) :
    ∃ t eff, resolve_target_heading path depth = some (t, eff) ∧ t ∈ path := by
  have hlen : 0 < path.length := List.length_pos.mpr hne
  have hemp : path.isEmpty = false := by
    simpa [List.isEmpty_iff] using hne
  have h1 : 1 ≤ (if depth < 1 then (1 : Int) else depth).toNat := by
    split <;> omega
  refine ⟨path.getD (path.length
      - min (if depth < 1 then (1 : Int) else depth).toNat path.length) "",
      min (if depth < 1 then (1 : Int) else depth).toNat path.length, ?_, ?_⟩
  · unfold resolve_target_heading
    simp [hemp]
  · have hidx : path.length
        - min (if depth < 1 then (1 : Int) else depth).toNat path.length
        < path.length := by
      have : 1 ≤ min (if depth < 1 then (1 : Int) else depth).toNat path.length :=
        Nat.le_min.mpr ⟨h1, hlen⟩
      omega
    rw [List.getD_eq_getElem _ _ hidx]
    exact List.getElem_mem hidx

/-- C1: when the located query chunk has a non-empty heading path, the
grouping succeeds; the result list is (as a multiset) exactly the hits
of the chunks whose recomputed heading path contains the resolved target
heading, it is sorted by reported chunk index ascending, and it contains
the hit of the query chunk itself. -/
theorem C1_section_grouping (chunks : List StoredChunk) (docName : String)
    (n depth : Int) (tc : StoredChunk)
    (hloc : locateChunk chunks n = some tc)
    (hne : chunkHeadingsOf tc ≠ []) :
    ∃ target depthUsed r,
      resolve_target_heading (chunkHeadingsOf tc) depth
        = some (target, depthUsed) ∧
      resolveSection chunks docName n depth = SectionResult.ok r ∧
      r.depth_used = depthUsed ∧
      r.target_heading = some target ∧
      r.results.Perm ((chunks.filter
        (fun ch => (chunkHeadingsOf ch).contains target)).map (toHit docName)) ∧
      List.Pairwise (fun a b => a.chunk_index ≤ b.chunk_index) r.results ∧
      target ∈ chunkHeadingsOf tc ∧
      toHit docName tc ∈ r.results := by
  obtain ⟨target, eff, hres, htm⟩ :=
    resolve_target_heading_mem (chunkHeadingsOf tc) depth hne
  refine ⟨target, eff,
    ⟨eff, some target,
     sortHits ((chunks.filter
       (fun ch => (chunkHeadingsOf ch).contains target)).map (toHit docName)),
     none⟩,
    hres, resolveSection_ok chunks docName n depth tc target eff hloc hres,
    rfl, rfl, sortHits_perm _, sortHits_sorted _, htm, ?_⟩
  have htc : tc ∈ chunks.filter
      (fun ch => (chunkHeadingsOf ch).contains target) := by
    refine List.mem_filter.mpr ⟨locateChunk_mem chunks n tc hloc, ?_⟩
    simpa using htm
  exact List.mem_mergeSort.mpr (List.mem_map_of_mem (toHit docName) htc)

/-- C1 witness: the spec example.  Chunk 5 of the demo document has
heading path `["1 ", "1.2 ", "1.2.3 "]`; at depth 2 the target heading
is `"1.2"` and the grouping succeeds with the stated properties. -/
theorem C1_witness :
    ∃ target depthUsed r,
      resolve_target_heading
          (chunkHeadingsOf (demoChunk 5 ["1 ", "1.2 ", "1.2.3 "])) 2
        = some (target, depthUsed) ∧
      resolveSection demoChunks "doc.docx" 5 2 = SectionResult.ok r ∧
      r.depth_used = depthUsed ∧
      r.target_heading = some target ∧
      r.results.Perm ((demoChunks.filter
        (fun ch => (chunkHeadingsOf ch).contains target)).map (toHit "doc.docx")) ∧
      List.Pairwise (fun a b => a.chunk_index ≤ b.chunk_index) r.results ∧
      target ∈ chunkHeadingsOf (demoChunk 5 ["1 ", "1.2 ", "1.2.3 "]) ∧
      toHit "doc.docx" (demoChunk 5 ["1 ", "1.2 ", "1.2.3 "]) ∈ r.results :=
  C1_section_grouping demoChunks "doc.docx" 5 2
    (demoChunk 5 ["1 ", "1.2 ", "1.2.3 "]) (by decide) (by decide)

/-- C10: a matching chunk whose stored `chunk_index` cannot be parsed as
an integer is still included in the match list, reported with
`chunk_index = -1`, and it is placed before every hit that carries a
nonnegative index. -/
theorem C10_unparseable_index (chunks : List StoredChunk) (docName : String)
    (n depth : Int) (tc c : StoredChunk) (target : String) (eff : Nat)
    (hloc : locateChunk chunks n = some tc)
    (hres : resolve_target_heading (chunkHeadingsOf tc) depth
      = some (target, eff))
    (hc : c ∈ chunks)
    (hmem : (chunkHeadingsOf c).contains target = true)
    (hbad : pyAsIntOpt (dlookup (metaOf c) "chunk_index") = none) :
    ∃ r, resolveSection chunks docName n depth = SectionResult.ok r ∧
      toHit docName c ∈ r.results ∧
      (toHit docName c).chunk_index = -1 ∧
      (∀ i j : Fin r.results.length,
        (r.results.get i).chunk_index = -1 →
        0 ≤ (r.results.get j).chunk_index → i < j) := by
  refine ⟨⟨eff, some target, sortHits ((chunks.filter
      (fun ch => (chunkHeadingsOf ch).contains target)).map (toHit docName)),
      none⟩,
    resolveSection_ok chunks docName n depth tc target eff hloc hres,
    ?_, ?_, ?_⟩
  · exact List.mem_mergeSort.mpr
      (List.mem_map_of_mem _ (List.mem_filter.mpr ⟨hc, hmem⟩))
  · unfold toHit
    simp [hbad]
  · intro i j hi hj
    exact neg_one_hits_first _ (sortHits_sorted _) i j hi hj

/-- C10 witness: the demo store with a chunk whose `chunk_index` is the
unparseable string `"x"`; it shares heading `"1.2"` with chunk 5, is
included, reported as -1 and placed first. -/
theorem C10_witness :
    ∃ r, resolveSection demoChunks2 "doc.docx" 5 2 = SectionResult.ok r ∧
      toHit "doc.docx" demoBadChunk ∈ r.results ∧
      (toHit "doc.docx" demoBadChunk).chunk_index = -1 ∧
      (∀ i j : Fin r.results.length,
        (r.results.get i).chunk_index = -1 →
        0 ≤ (r.results.get j).chunk_index → i < j) :=
  C10_unparseable_index demoChunks2 "doc.docx" 5 2
    (demoChunk 5 ["1 ", "1.2 ", "1.2.3 "]) demoBadChunk "1.2" 2
    (by decide) (by decide) (by decide) (by decide) (by decide)

end DoclingBot
